import Mathlib

/-
  Verification development for the goscp-server repository (src/main.go).

  The source file contains two variants of the chat server; the second,
  session/user-based variant (types `Session`, `User`, `PrivateMessage`,
  the `Session` methods, `handleClient`, `userExists`, `getUser`) is the
  one the claims reference, and it is the variant embedded here.

  Modelling conventions:
  - Go pointers to `User` objects are modelled as indices (`Nat`) into a
    heap (`List UserData`); the global `users` slice is a list of such
    indices.  Objects are never freed by the source, so indices stay valid.
  - A Go nil-pointer dereference is modelled by the `StepResult.panic`
    outcome: in the source such a dereference panics inside the connection
    goroutine without a recover, crashing the whole process.
  - Socket writes are modelled as `Output.write remoteAddr bytes` events;
    the source identifies a session's connection by its remote address
    (all equality tests on sessions in the source compare `RemoteAddr`).
  - bcrypt is an external library; it is modelled by `bcryptHash` /
    `bcryptVerify` below (see their doc comment).
-/

namespace GoSCP

/-- One entry of a user's `Sessions` slice.  The source stores `Session`
structs by value; only the `RemoteAddr` field is consulted by any of the
modelled operations (all session comparisons in the source are
`RemoteAddr` comparisons, and writes are identified by the target
session's address). -/
structure SessRec where
  remoteAddr : String
deriving DecidableEq

/-- `PrivateMessage` of the source: a pointer to the sending user and the
message text.  The pointer is a heap index. -/
structure PendingPM where
  senderRef : Nat
  message : String
deriving DecidableEq

/-- The `User` struct of the source (second variant). -/
structure UserData where
  username : String
  passwordHash : String
  about : String
  online : Bool
  mute : Bool
  admin : Bool
  root : Bool
  ghost : Bool
  away : Bool
  awayReason : String
  awayAnnounce : Bool
  sessions : List SessRec
  pendingPMs : List PendingPM
deriving DecidableEq

/-- A fresh `User` value: Go zero value for every field. -/
def mkUser (username about : String) : UserData :=
  { username := username
    passwordHash := ""
    about := about
    online := false
    mute := false
    admin := false
    root := false
    ghost := false
    away := false
    awayReason := ""
    awayAnnounce := false
    sessions := []
    pendingPMs := [] }

instance : Inhabited UserData := ⟨mkUser "" ""⟩

/-- The shared server state: the heap of all allocated `User` objects and
the global `users` slice (as heap indices). -/
structure ServerState where
  heap : List UserData
  users : List Nat
deriving DecidableEq

/-- The per-connection `Session` value of `handleClient`: the (possible)
pointer to its user, the `Authenticated` flag, and the connection's
remote address. -/
structure ConnSession where
  userRef : Option Nat
  authenticated : Bool
  remoteAddr : String
deriving DecidableEq

/-- Dereference a user pointer.  In every reachable configuration the
indices used are in range; the default is never observable there. -/
def hget (heap : List UserData) (r : Nat) : UserData :=
  heap.getD r default

/-- Update the user object at index `r` (no-op when out of range, which
never happens in reachable configurations). -/
def setUser (st : ServerState) (r : Nat) (f : UserData → UserData) : ServerState :=
  { st with heap := st.heap.set r (f (hget st.heap r)) }

/-- Observable effects of a command. -/
inductive Output where
  | write (remoteAddr : String) (bytes : String)
  | closeSocket (remoteAddr : String)
deriving DecidableEq

/-- `strings.Join(parameters, "\x01")` of `Session.Write`. -/
def joinSOH : List String → String
  | [] => ""
  | [p] => p
  | p :: q :: ps => p ++ "\x01" ++ joinSOH (q :: ps)

/-- `Session.Write`: join the parameters with SOH and append CRLF. -/
def encode (params : List String) : String :=
  joinSOH params ++ "\r\n"

/-- Modelled from the spec: the opaque password-hashing capability
(`golang.org/x/crypto/bcrypt` in the source, §9 of the spec treats it as
an external `hash`/`verify` service).  The model makes hashing
deterministic; the properties the server relies on hold: the digest is
never empty, and verification succeeds exactly for the hashed
password. -/
def bcryptHash (pw : String) : String :=
  "$2a$" ++ pw

/-- Modelled from the spec: `bcrypt.CompareHashAndPassword` succeeds
(returns nil) exactly when the digest came from hashing this password. -/
def bcryptVerify (digest pw : String) : Bool :=
  digest = bcryptHash pw

/-- Configuration strings of the source. -/
def joinMsg : String :=
  "This server is running an experimental Go implementation of the kSCP server specification."

def motdMsg : String :=
  "Welcome to GoSCP!"

def colorServer : String := "#d64161"

def colorAuth : String := "#ffcc00"

def colorInfo : String := "#f6de6c"

/-- `Session.SendAuthMsg`. -/
def sendAuthMsgOut (addr msg : String) : Output :=
  .write addr (encode ["MSG", "[Authentication]", "[color=" ++ colorAuth ++ "]" ++ msg ++ "[/color]"])

/-- `Session.SendServerMsg`. -/
def serverMsgOut (addr msg : String) : Output :=
  .write addr (encode ["MSG", "[Server]", "[color=" ++ colorServer ++ "]" ++ msg ++ "[/color]"])

/-- `Session.SendInfoMsg`. -/
def infoMsgOut (addr msg : String) : Output :=
  .write addr (encode ["MSG", "[Info]", "[color=" ++ colorInfo ++ "]" ++ msg ++ "[/color]"])

/-- `userExists`: scans the global `users` slice for a user with this
username, a non-empty password hash and ghost mode off. -/
def userExists (st : ServerState) (username : String) : Bool :=
  st.users.any (fun r =>
    username = (hget st.heap r).username
      ∧ (hget st.heap r).passwordHash ≠ ""
      ∧ (hget st.heap r).ghost = false)

/-- `getUser`: first user in the `users` slice matching as in
`userExists` (returns its heap index). -/
def getUserRef (st : ServerState) (username : String) : Option Nat :=
  st.users.find? (fun r =>
    username = (hget st.heap r).username
      ∧ (hget st.heap r).passwordHash ≠ ""
      ∧ (hget st.heap r).ghost = false)

/-- Inner loop of `Session.BroadcastMsg` / `Session.BroadcastAction`:
write the record to every session of one user except those sharing the
originating connection's remote address. -/
def broadcastSessions (sessions : List SessRec) (fromAddr rec : String) : List Output :=
  match sessions with
  | [] => []
  | sess :: rest =>
    if sess.remoteAddr = fromAddr then broadcastSessions rest fromAddr rec
    else .write sess.remoteAddr rec :: broadcastSessions rest fromAddr rec

/-- Outer loop of the broadcast methods: every user of the global `users`
slice in order. -/
def broadcastUsers (heap : List UserData) (refs : List Nat) (fromAddr rec : String) : List Output :=
  match refs with
  | [] => []
  | r :: rest =>
    broadcastSessions (hget heap r).sessions fromAddr rec ++ broadcastUsers heap rest fromAddr rec

/-- `Session.BroadcastMsg`: a `MSG` record labelled with the sending
session's own username, to all sessions of all users except those with
the originating connection's remote address. -/
def broadcastMsgOutputs (st : ServerState) (senderUsername fromAddr msg : String) : List Output :=
  broadcastUsers st.heap st.users fromAddr (encode ["MSG", senderUsername, msg])

/-- `Session.BroadcastAction`: as `BroadcastMsg` but labelled
"Announcement". -/
def broadcastActionOutputs (st : ServerState) (fromAddr msg : String) : List Output :=
  broadcastUsers st.heap st.users fromAddr (encode ["MSG", "Announcement", msg])

/-- `Session.SendPM`: find the target user by username in the `users`
slice; with zero attached sessions the message is appended to the
target's `PendingPMs` (storing a pointer to the sending user), otherwise
it is written to every one of the target's sessions. -/
def sendPMFn (st : ServerState) (senderRef : Nat) (target msg : String) : ServerState × List Output :=
  match st.users.find? (fun f => target = (hget st.heap f).username) with
  | none => (st, [])
  | some f =>
    let u := hget st.heap f
    if u.sessions.length ≤ 0 then
      (setUser st f (fun v => { v with pendingPMs := v.pendingPMs ++ [⟨senderRef, msg⟩] }), [])
    else
      (st, u.sessions.map (fun sess => .write sess.remoteAddr (encode ["PM", (hget st.heap senderRef).username, msg])))

/-- `Session.SendRAW`: forward the payload to all of the target user's
sessions except those with the originating connection's remote address,
labelled with the target username. -/
def sendRAWOutputs (st : ServerState) (fromAddr target raw : String) : List Output :=
  match st.users.find? (fun f => target = (hget st.heap f).username) with
  | none => []
  | some f =>
    broadcastSessions (hget st.heap f).sessions fromAddr (encode ["RAW", target, raw])

/-- Flag summary of `Session.SendList`: starts from "O" and appends
"M", "A", "R", "B" in this fixed order for mute, admin, root, away. -/
def flagsOf (u : UserData) : String :=
  "O" ++ (if u.mute then "M" else "")
      ++ (if u.admin then "A" else "")
      ++ (if u.root then "R" else "")
      ++ (if u.away then "B" else "")

/-- One roster row of `Session.SendList`:
`fmt.Sprintf("[%s] %s - %s", flags, username, about)`. -/
def rosterEntry (u : UserData) : String :=
  "[" ++ flagsOf u ++ "] " ++ u.username ++ " - " ++ u.about

/-- The loop of `Session.SendList`: skip ghost users, skip offline users,
render everyone else. -/
def sendListEntries : List UserData → List String
  | [] => []
  | u :: rest =>
    if u.ghost then sendListEntries rest
    else if ¬ u.online then sendListEntries rest
    else rosterEntry u :: sendListEntries rest

/-- `Session.SendList`: the single `LIST` record written to the
requesting session. -/
def sendListOut (st : ServerState) (addr : String) : Output :=
  .write addr (encode ["LIST", joinSOH (sendListEntries (st.users.map (hget st.heap)))])

/-- `Session.Close`: find the first user of the `users` slice whose
username equals the session's user's username, rebuild that user's
session list without the sessions sharing this connection's remote
address, store it on the session's user, close the socket, and if the
session's user is now session-less mark it away with reason "Offline.".
`r` is the session's user pointer (`s.User`). -/
def sessionCloseFn (st : ServerState) (r : Nat) (addr : String) : ServerState × List Output :=
  match st.users.find? (fun f => (hget st.heap r).username = (hget st.heap f).username) with
  | none => (st, [])
  | some f =>
    let newSessions := (hget st.heap f).sessions.filter (fun sess => sess.remoteAddr ≠ addr)
    let st1 := setUser st r (fun u => { u with sessions := newSessions })
    if (hget st1.heap r).sessions.length ≤ 0 then
      (setUser st1 r (fun u => { u with away := true, awayReason := "Offline." }), [.closeSocket addr])
    else
      (st1, [.closeSocket addr])

/-- `Session.Kill` for a session with user pointer `r`: with an empty
reason a single `KILL` record is written; with a non-empty reason the
record is written twice, once directly on the socket and once through
`Session.Write`; then the session is closed as by `Session.Close`. -/
def sessionKill (st : ServerState) (r : Nat) (addr reason : String) : ServerState × List Output :=
  let w : List Output :=
    if reason = "" then [.write addr (encode ["KILL"])]
    else [.write addr ("KILL\x01" ++ reason ++ "\r\n"), .write addr (encode ["KILL", reason])]
  let c := sessionCloseFn st r addr
  (c.1, w ++ c.2)

/-- Result of dispatching one decoded record on a connection.  `panic`
models a nil-pointer dereference of `session.User` in the source: the
goroutine has no recover, so the panic crashes the whole process. -/
inductive StepResult where
  | ok (st : ServerState) (cs : ConnSession) (out : List Output)
  | panic
deriving DecidableEq

/-- The state part of a non-panicking result. -/
def stepState : StepResult → Option ServerState
  | .ok st _ _ => some st
  | .panic => none

/-- The session part of a non-panicking result. -/
def stepSession : StepResult → Option ConnSession
  | .ok _ cs _ => some cs
  | .panic => none

/-- The outputs of a non-panicking result. -/
def stepOut : StepResult → List Output
  | .ok _ _ out => out
  | .panic => []

/-- The token of the `session.Ping` issued on JOIN.  The source sends
`string(time.Now().Unix())`, a time-dependent rune; the value is
irrelevant to every modelled property and is fixed to a placeholder. -/
def joinPingToken : String := "?"

/-- The `case "PING"` of `handleClient`. -/
def doPing (st : ServerState) (cs : ConnSession) (args : List String) : StepResult :=
  if args.length < 1 then .ok st cs []
  else .ok st cs [.write cs.remoteAddr (encode ["PONG", args.headD ""])]

/-- Body of `case "JOIN"` once the online guard has passed: allocate the
candidate user, point the session at it, ping, then either re-point the
session at the already-registered user of that name and prompt for its
password, or prompt to register a new password. -/
def doJoinBody (st : ServerState) (cs : ConnSession) (args : List String) : StepResult :=
  if args.length < 1 then .ok st cs []
  else
    let name := args.headD ""
    let about := if args.length > 1 then args.getD 1 "" else ""
    let newRef := st.heap.length
    let st1 : ServerState := { st with heap := st.heap ++ [mkUser name about] }
    let outPing := Output.write cs.remoteAddr (encode ["PING", joinPingToken])
    if userExists st1 name then
      .ok st1 { cs with userRef := getUserRef st1 name }
        [outPing, sendAuthMsgOut cs.remoteAddr
          "You must authenticate with the password attached to your username to continue. Ex: [u]/auth MyPassword[/u]"]
    else
      .ok st1 { cs with userRef := some newRef }
        [outPing, sendAuthMsgOut cs.remoteAddr
          "You must register a password to attach to your username to continue. Ex: [u]/auth MyNewPassword[/u]"]

/-- `case "JOIN"`: skipped when the session already has a user that is
online. -/
def doJoin (st : ServerState) (cs : ConnSession) (args : List String) : StepResult :=
  match cs.userRef with
  | some r => if (hget st.heap r).online then .ok st cs [] else doJoinBody st cs args
  | none => doJoinBody st cs args

/-- Common tail of the successful `AUTH` paths: attach this session to
the user, mark it online and not away, set `Authenticated`, send the
list, the join banner (note the source's `SendAnnouncementMsg` writes
the opcode as "Msg"), the MOTD, then write out every pending private
message in order.  The pending queue is not cleared. -/
def authTail (st : ServerState) (cs : ConnSession) (r : Nat) (priorOuts : List Output) : StepResult :=
  let st1 := setUser st r (fun u =>
    { u with sessions := u.sessions ++ [⟨cs.remoteAddr⟩]
             online := true
             away := false
             awayReason := "" })
  let cs1 : ConnSession := { cs with authenticated := true }
  let pmOuts := (hget st1.heap r).pendingPMs.map (fun pm =>
    Output.write cs.remoteAddr (encode ["PM", (hget st1.heap pm.senderRef).username, pm.message]))
  .ok st1 cs1 (priorOuts
    ++ [sendListOut st1 cs.remoteAddr,
        .write cs.remoteAddr (encode ["Msg", "Announcement", joinMsg]),
        .write cs.remoteAddr (encode ["MSG", "Message of the Day", motdMsg])]
    ++ pmOuts)

/-- `case "AUTH"`.  An authenticated session treats it as a password
change.  Otherwise the source dereferences `session.User` without a nil
check, so a session with no user attached panics.  A user with a digest
is verified against it; a user without one is registered unless the
username has been taken meanwhile. -/
def doAuth (st : ServerState) (cs : ConnSession) (args : List String) : StepResult :=
  if args.length < 1 then .ok st cs []
  else
    let password := args.headD ""
    if cs.authenticated then
      match cs.userRef with
      | none => .panic
      | some r =>
        .ok (setUser st r (fun u => { u with passwordHash := bcryptHash password })) cs
          [sendAuthMsgOut cs.remoteAddr "Changed your password successfully."]
    else
      match cs.userRef with
      | none => .panic
      | some r =>
        let u := hget st.heap r
        if u.passwordHash ≠ "" then
          if bcryptVerify u.passwordHash password then
            authTail st cs r
              [sendAuthMsgOut cs.remoteAddr ("Authenticated as " ++ u.username ++ " successfully.")]
          else
            .ok st cs [sendAuthMsgOut cs.remoteAddr "You entered an invalid password. Please try again."]
        else
          if userExists st u.username then
            .ok st cs [sendAuthMsgOut cs.remoteAddr
              ("The username " ++ u.username ++ " is already taken. Please change your username and try again. Ex: [u]/nick MyNewUsername[/u]")]
          else
            let st1 := setUser st r (fun v => { v with passwordHash := bcryptHash password })
            let st2 : ServerState := { st1 with users := st1.users ++ [r] }
            authTail st2 cs r
              ([sendAuthMsgOut cs.remoteAddr "Registered your username with your chosen password successfully."]
                ++ broadcastActionOutputs st2 cs.remoteAddr ((hget st2.heap r).username ++ " has joined the server!"))

/-- `case "QUIT"`: `session.Close()` (a nil `session.User` panics).  The
`break` of the source only leaves the switch, not the packet loop. -/
def doQuit (st : ServerState) (cs : ConnSession) : StepResult :=
  match cs.userRef with
  | none => .panic
  | some r =>
    let c := sessionCloseFn st r cs.remoteAddr
    .ok c.1 cs c.2

/-- `case "MSG"`: only for authenticated sessions asserting their own
username as the first argument; broadcasts the text. -/
def doMsg (st : ServerState) (cs : ConnSession) (args : List String) : StepResult :=
  if ¬ cs.authenticated then .ok st cs []
  else if args.length < 2 then .ok st cs []
  else
    match cs.userRef with
    | none => .panic
    | some r =>
      if args.headD "" ≠ (hget st.heap r).username then .ok st cs []
      else .ok st cs (broadcastMsgOutputs st (hget st.heap r).username cs.remoteAddr (args.getD 1 ""))

/-- `case "PM"`: only for authenticated sessions; unknown targets are
reported, otherwise `Session.SendPM` runs.  An authenticated session
always has a user attached, so the sender pointer is taken from
`userRef`. -/
def doPM (st : ServerState) (cs : ConnSession) (args : List String) : StepResult :=
  if ¬ cs.authenticated then .ok st cs []
  else if args.length < 2 then .ok st cs []
  else if ¬ userExists st (args.headD "") then
    .ok st cs [serverMsgOut cs.remoteAddr ("The user " ++ args.headD "" ++ " does not exist.")]
  else
    match cs.userRef with
    | none => .panic
    | some sref =>
      let c := sendPMFn st sref (args.headD "") (args.getD 1 "")
      .ok c.1 cs c.2

/-- `case "LIST"`: only for authenticated sessions. -/
def doList (st : ServerState) (cs : ConnSession) : StepResult :=
  if ¬ cs.authenticated then .ok st cs []
  else .ok st cs [sendListOut st cs.remoteAddr]

/-- `case "NAME"`: no authentication check; the session's user (a nil
user panics) must assert its current username as the first argument,
the new name must not be registered, and the rename message wording
depends on `Authenticated` (the taken message quotes `args[0]`, as the
source does). -/
def doName (st : ServerState) (cs : ConnSession) (args : List String) : StepResult :=
  if args.length < 2 then .ok st cs []
  else
    match cs.userRef with
    | none => .panic
    | some r =>
      if (hget st.heap r).username ≠ args.headD "" then .ok st cs []
      else if userExists st (args.getD 1 "") then
        .ok st cs [if cs.authenticated then
            serverMsgOut cs.remoteAddr ("The username " ++ args.headD "" ++ " is already taken.")
          else
            sendAuthMsgOut cs.remoteAddr ("The username " ++ args.headD "" ++ " is already taken.")]
      else
        let st1 := setUser st r (fun u => { u with username := args.getD 1 "" })
        if cs.authenticated then
          .ok st1 cs (broadcastActionOutputs st1 cs.remoteAddr
              (args.headD "" ++ " is now known as " ++ args.getD 1 "" ++ ".")
            ++ [sendListOut st1 cs.remoteAddr])
        else
          .ok st1 cs [.write cs.remoteAddr (encode ["Msg", "Announcement",
            args.headD "" ++ " is now known as " ++ args.getD 1 "" ++ "."])]

/-- Go's `%v` rendering of a boolean. -/
def boolStr (b : Bool) : String :=
  if b then "true" else "false"

/-- `case "INFO"`: reads `session.User.Online` first (nil user panics);
builds the status block for an existing target.  The source's
`strings.TrimPrefix(userInfo, "%%n%%")` never fires: the block starts
with "Info for user". -/
def doInfo (st : ServerState) (cs : ConnSession) (args : List String) : StepResult :=
  match cs.userRef with
  | none => .panic
  | some r =>
    if ¬ (hget st.heap r).online then .ok st cs []
    else if args.length < 1 then .ok st cs []
    else if ¬ userExists st (args.headD "") then
      .ok st cs [serverMsgOut cs.remoteAddr ("The user " ++ args.headD "" ++ " does not exist.")]
    else
      match getUserRef st (args.headD "") with
      | none => .panic
      | some t =>
        let u := hget st.heap t
        let block := "Info for user " ++ u.username ++ ":%n%"
          ++ "Online: " ++ boolStr u.online ++ "%n%" ++ "Away: " ++ boolStr u.away ++ "%n%"
          ++ (if u.awayReason ≠ "" then "Away reason: " ++ u.awayReason ++ "%n%" else "")
          ++ "Muted: " ++ boolStr u.mute ++ "%n%" ++ "Admin: " ++ boolStr u.admin
          ++ "%n%" ++ "Root: " ++ boolStr u.root ++ "%n%"
        .ok st cs [infoMsgOut cs.remoteAddr block]

/-- `case "RAW"`: reads `session.User.Online` first (nil user panics);
forwards the payload via `Session.SendRAW` for an existing target. -/
def doRaw (st : ServerState) (cs : ConnSession) (args : List String) : StepResult :=
  match cs.userRef with
  | none => .panic
  | some r =>
    if ¬ (hget st.heap r).online then .ok st cs []
    else if args.length < 2 then .ok st cs []
    else if ¬ userExists st (args.headD "") then
      .ok st cs [serverMsgOut cs.remoteAddr ("The user " ++ args.headD "" ++ " does not exist.")]
    else
      .ok st cs (sendRAWOutputs st cs.remoteAddr (args.headD "") (args.getD 1 ""))

/-- `case "AWAY"`: reads `session.User.Online` first (nil user panics);
toggles the away state exactly as the source does and ends with a
list. -/
def doAway (st : ServerState) (cs : ConnSession) (args : List String) : StepResult :=
  match cs.userRef with
  | none => .panic
  | some r =>
    if ¬ (hget st.heap r).online then .ok st cs []
    else
      let u := hget st.heap r
      if u.away then
        let st1 := setUser st r (fun v => { v with away := false })
        let outs1 := [infoMsgOut cs.remoteAddr "You are no longer marked as away."]
          ++ (if u.awayAnnounce then
                broadcastActionOutputs st1 cs.remoteAddr (u.username ++ " is no longer marked as away.")
              else [])
        let st2 := setUser st1 r (fun v => { v with awayAnnounce := false, awayReason := "" })
        .ok st2 cs (outs1 ++ [sendListOut st2 cs.remoteAddr])
      else
        let st1 := setUser st r (fun v => { v with away := true })
        if args.length > 0 then
          let st2 := setUser st1 r (fun v => { v with awayReason := args.headD "" })
          let outs1 := [infoMsgOut cs.remoteAddr ("You are now marked as away. Reason: " ++ args.headD "")]
          if args.length > 1 ∧ args.getD 1 "" = "1" then
            let st3 := setUser st2 r (fun v => { v with awayAnnounce := true })
            .ok st3 cs (outs1
              ++ broadcastActionOutputs st3 cs.remoteAddr
                  (u.username ++ " is now marked as away. Reason: " ++ args.headD "")
              ++ [sendListOut st3 cs.remoteAddr])
          else
            .ok st2 cs (outs1 ++ [sendListOut st2 cs.remoteAddr])
        else
          .ok st1 cs ([infoMsgOut cs.remoteAddr "You are now marked as away."]
            ++ [sendListOut st1 cs.remoteAddr])

/-- The `default` case of the dispatcher. -/
def doDefault (st : ServerState) (cs : ConnSession) (cmd : String) : StepResult :=
  .ok st cs [serverMsgOut cs.remoteAddr ("Server does not support opcode [b]" ++ cmd ++ "[/b].")]

/-- The switch of `handleClient`: field 0 of the record is the opcode,
the rest the arguments ("PONG" is a no-op). -/
def dispatch (st : ServerState) (cs : ConnSession) (p : List String) : StepResult :=
  if p.headD "" = "PING" then doPing st cs p.tail
  else if p.headD "" = "PONG" then .ok st cs []
  else if p.headD "" = "JOIN" then doJoin st cs p.tail
  else if p.headD "" = "AUTH" then doAuth st cs p.tail
  else if p.headD "" = "QUIT" then doQuit st cs
  else if p.headD "" = "MSG" then doMsg st cs p.tail
  else if p.headD "" = "PM" then doPM st cs p.tail
  else if p.headD "" = "LIST" then doList st cs
  else if p.headD "" = "NAME" then doName st cs p.tail
  else if p.headD "" = "INFO" then doInfo st cs p.tail
  else if p.headD "" = "RAW" then doRaw st cs p.tail
  else if p.headD "" = "AWAY" then doAway st cs p.tail
  else doDefault st cs (p.headD "")

/-- Result of the per-read packet loop. -/
inductive RunResult where
  | ok (st : ServerState) (cs : ConnSession) (out : List Output)
  | panic
deriving DecidableEq

/-- The inner `for` of `handleClient` over the records decoded from one
read: each record is dispatched in order; a `QUIT` does not leave this
loop (the source's `break` only leaves the switch). -/
def processPackets (st : ServerState) (cs : ConnSession) : List (List String) → RunResult
  | [] => .ok st cs []
  | p :: ps =>
    match dispatch st cs p with
    | .panic => .panic
    | .ok st1 cs1 out =>
      match processPackets st1 cs1 ps with
      | .panic => .panic
      | .ok st2 cs2 out2 => .ok st2 cs2 (out ++ out2)

/-- The state part of a non-panicking run. -/
def runState : RunResult → Option ServerState
  | .ok st _ _ => some st
  | .panic => none

/-- The session part of a non-panicking run. -/
def runSession : RunResult → Option ConnSession
  | .ok _ cs _ => some cs
  | .panic => none

/-- The outputs of a non-panicking run. -/
def runOut : RunResult → List Output
  | .ok _ _ out => out
  | .panic => []

/-- A fresh `Session` value for a newly accepted connection. -/
def freshSession (addr : String) : ConnSession :=
  { userRef := none, authenticated := false, remoteAddr := addr }

/-- `strings.Split(buf, "\r\n")` on the characters of one read buffer:
non-overlapping left-to-right scan for the two-character separator. -/
def splitCRLF : List Char → List (List Char)
  | [] => [[]]
  | '\r' :: '\n' :: rest => [] :: splitCRLF rest
  | c :: rest =>
    match splitCRLF rest with
    | [] => [[c]]
    | p :: ps => (c :: p) :: ps

/-- `strings.Split(record, "\x01")` on the characters of one record. -/
def splitSOH : List Char → List (List Char)
  | [] => [[]]
  | '\x01' :: rest => [] :: splitSOH rest
  | c :: rest =>
    match splitSOH rest with
    | [] => [[c]]
    | p :: ps => (c :: p) :: ps

/-- The decoding done on each read in `handleClient`: split the buffer
on CRLF, drop empty records, split every record on SOH.  (`splitSOH`
never yields an empty list, so the source's `len(packet) <= 0` skip is
dead code.) -/
def decodeBuffer (s : String) : List (List String) :=
  ((splitCRLF s.data).filter (fun p => p ≠ [])).map (fun p => (splitSOH p).map String.mk)

/-- The read loop's view of a connection's byte stream: every read's
buffer is decoded on its own, with no buffering of a partial record
across reads. -/
def decodeReads : List String → List (List String)
  | [] => []
  | b :: bs => decodeBuffer b ++ decodeReads bs

/-- The concatenation of all the reads: the byte stream itself. -/
def concatReads : List String → String
  | [] => ""
  | b :: bs => b ++ concatReads bs

/-- The whole-process state: the shared registry state and the live
connections' sessions. -/
structure Sys where
  st : ServerState
  conns : List ConnSession
deriving DecidableEq

/-- The state at process start: no users, no connections. -/
def initSys : Sys :=
  { st := { heap := [], users := [] }, conns := [] }

/-- One observable step of the whole process, with commands of distinct
connections interleaved at record granularity: a new connection is
accepted, one connection dispatches one decoded record without
panicking, or a connection's read fails and `handleClient` tears the
session down via `Session.Close` (which dereferences the session's
user). -/
inductive SysStep : Sys → Sys → Prop where
  | connect (s : Sys) (addr : String) :
      SysStep s { st := s.st, conns := s.conns ++ [freshSession addr] }
  | packet (s : Sys) (i : Nat) (cs : ConnSession) (p : List String)
      (st1 : ServerState) (cs1 : ConnSession) (out : List Output)
      (hcs : s.conns.get? i = some cs)
      (hd : dispatch s.st cs p = .ok st1 cs1 out) :
      SysStep s { st := st1, conns := s.conns.set i cs1 }
  | disconnect (s : Sys) (i : Nat) (cs : ConnSession) (r : Nat)
      (hcs : s.conns.get? i = some cs) (hr : cs.userRef = some r) :
      SysStep s { st := (sessionCloseFn s.st r cs.remoteAddr).1, conns := s.conns.eraseIdx i }

/-- A process state reachable from start. -/
def Reachable (s : Sys) : Prop :=
  Relation.ReflTransGen SysStep initSys s

/-- The usernames of the registered users, in registry order. -/
def RegNames (st : ServerState) : List String :=
  st.users.map (fun r => (hget st.heap r).username)

/-- Registry invariant: registry pointers are valid, every registered
user has a non-empty digest, no user object is ever in ghost mode (the
source never sets the flag), registered usernames are pairwise distinct,
and every user object with a non-empty digest is registered. -/
def StInv (st : ServerState) : Prop :=
  (∀ r ∈ st.users, r < st.heap.length)
  ∧ (∀ r ∈ st.users, (hget st.heap r).passwordHash ≠ "")
  ∧ (∀ u ∈ st.heap, u.ghost = false)
  ∧ (RegNames st).Nodup
  ∧ (∀ i, i < st.heap.length → (hget st.heap i).passwordHash ≠ "" → i ∈ st.users)

/-- Connection invariant: the session's user pointer is valid, and an
authenticated session points at a registered, online user. -/
def ConnOk (st : ServerState) (cs : ConnSession) : Prop :=
  (∀ r, cs.userRef = some r → r < st.heap.length)
  ∧ (cs.authenticated = true → ∃ r, cs.userRef = some r ∧ r ∈ st.users ∧ (hget st.heap r).online = true)

/-- Monotone facts between a state and a successor: the heap only grows,
registration is never revoked, and `online` is never cleared. -/
def Preserves (st st2 : ServerState) : Prop :=
  st.heap.length ≤ st2.heap.length
  ∧ (∀ r, r ∈ st.users → r ∈ st2.users)
  ∧ (∀ r, (hget st.heap r).online = true → (hget st2.heap r).online = true)

/-- Whole-process invariant. -/
def SysInv (s : Sys) : Prop :=
  StInv s.st ∧ ∀ cs ∈ s.conns, ConnOk s.st cs

/-- All sessions of all registered users, in registry and attachment
order (for stating what a broadcast reaches). -/
def allSessions (heap : List UserData) : List Nat → List SessRec
  | [] => []
  | r :: rest => (hget heap r).sessions ++ allSessions heap rest

/-- The roster as the spec words it: the online, non-ghost users, each
rendered by `rosterEntry`. -/
def rosterSpec (us : List UserData) : List String :=
  (us.filter (fun u => u.ghost = false ∧ u.online = true)).map rosterEntry

/-- The "alice" of `c1State`: registered, no sessions, one queued PM. -/
def c1Alice : UserData :=
  { mkUser "alice" "" with passwordHash := bcryptHash "pw", pendingPMs := [⟨1, "hello"⟩] }

/-- The "bob" of `c1State`: registered and online with one session. -/
def c1Bob : UserData :=
  { mkUser "bob" "" with passwordHash := bcryptHash "bpw", online := true, sessions := [⟨"b1"⟩] }

/-- Registry with a registered user "alice" holding one queued private
message from "bob" and no attached session, and an online "bob". -/
def c1State : ServerState :=
  { heap := [c1Alice, c1Bob], users := [0, 1] }

/-- A session that has joined as "alice" but not yet authenticated. -/
def c1Session : ConnSession := { userRef := some 0, authenticated := false, remoteAddr := "a1" }

/-- An "alice" online with two concurrent sessions "a1" and "a2". -/
def c2Alice : UserData :=
  { mkUser "alice" "" with passwordHash := bcryptHash "pw", online := true, sessions := [⟨"a1"⟩, ⟨"a2"⟩] }

/-- Registry with one user "alice" holding two concurrent sessions. -/
def c2State : ServerState :=
  { heap := [c2Alice], users := [0] }

/-- Registry with a registered "alice" and an in-flight join candidate
also named "alice" (heap index 1, not registered). -/
def c4wSt : ServerState :=
  { heap := [{ mkUser "alice" "" with passwordHash := bcryptHash "pw" }, mkUser "alice" ""],
    users := [0] }

/-- The candidate's session: joined, not authenticated. -/
def c4wCs : ConnSession := { userRef := some 1, authenticated := false, remoteAddr := "c1" }

/-- An "alice" online with the single session "a1". -/
def oneSessionAlice : UserData :=
  { mkUser "alice" "" with passwordHash := bcryptHash "pw", online := true, sessions := [⟨"a1"⟩] }

/-- Registry with one user "alice" online with a single session "a1". -/
def c6State : ServerState :=
  { heap := [oneSessionAlice], users := [0] }

/-- Same shape as `c6State`, for the kill scenario. -/
def c8State : ServerState :=
  { heap := [oneSessionAlice], users := [0] }

/-- Same shape as `c6State`, for the quit scenario. -/
def c9State : ServerState :=
  { heap := [oneSessionAlice], users := [0] }

/-- The authenticated session of `c9State`'s user. -/
def c9Session : ConnSession := { userRef := some 0, authenticated := true, remoteAddr := "a1" }

/-- Registry with a registered "alice" and no attached session. -/
def c10State : ServerState :=
  { heap := [{ mkUser "alice" "" with passwordHash := bcryptHash "pw" }],
    users := [0] }

end GoSCP

namespace GoSCP

theorem hget_set_self (heap : List UserData) (r : Nat) (u : UserData) (h : r < heap.length) :
    hget (heap.set r u) r = u := by
  unfold hget
  rw [List.getD_eq_getElem?_getD, List.getElem?_set_self]
  · rfl
  · exact h

theorem hget_set_ne (heap : List UserData) (r r' : Nat) (u : UserData) (h : r ≠ r') :
    hget (heap.set r u) r' = hget heap r' := by
  unfold hget
  rw [List.getD_eq_getElem?_getD, List.getD_eq_getElem?_getD, List.getElem?_set_ne h]

theorem hget_append (heap : List UserData) (u : UserData) (r : Nat) (h : r < heap.length) :
    hget (heap ++ [u]) r = hget heap r := by
  unfold hget
  rw [List.getD_eq_getElem?_getD, List.getD_eq_getElem?_getD, List.getElem?_append, if_pos h]

theorem hget_mem (heap : List UserData) (r : Nat) (h : r < heap.length) :
    hget heap r ∈ heap := by
  unfold hget
  rw [List.getD_eq_getElem?_getD, List.getElem?_eq_getElem h]
  exact List.getElem_mem h

theorem preserves_refl (st : ServerState) : Preserves st st :=
  ⟨Nat.le_refl _, fun _ h => h, fun _ h => h⟩

theorem preserves_trans {a b c : ServerState} (h1 : Preserves a b) (h2 : Preserves b c) :
    Preserves a c :=
  ⟨Nat.le_trans h1.1 h2.1, fun r hr => h2.2.1 r (h1.2.1 r hr), fun r hr => h2.2.2 r (h1.2.2 r hr)⟩

theorem connOk_mono {st st2 : ServerState} {cs : ConnSession}
    (h : ConnOk st cs) (hp : Preserves st st2) : ConnOk st2 cs := by
  refine ⟨fun r hr => Nat.lt_of_lt_of_le (h.1 r hr) hp.1, fun ha => ?_⟩
  obtain ⟨r, h1, h2, h3⟩ := h.2 ha
  exact ⟨r, h1, hp.2.1 r h2, hp.2.2 r h3⟩

theorem setUser_heget (st : ServerState) (r : Nat) (f : UserData → UserData)
    (hr : r < st.heap.length) (x : Nat) :
    hget (setUser st r f).heap x = if x = r then f (hget st.heap r) else hget st.heap x := by
  by_cases hx : x = r
  · subst hx
    simp [setUser, hget_set_self _ _ _ hr]
  · simp only [setUser]
    rw [hget_set_ne _ _ _ _ (fun h => hx h.symm)]
    simp [hx]

theorem stInv_setUser (st : ServerState) (r : Nat) (f : UserData → UserData)
    (hname : ∀ v, (f v).username = v.username)
    (hhash : ∀ v, (f v).passwordHash = v.passwordHash)
    (hghost : ∀ v, (f v).ghost = v.ghost)
    (honline : ∀ v, (f v).online = v.online ∨ (f v).online = true)
    (hinv : StInv st) : StInv (setUser st r f) ∧ Preserves st (setUser st r f) := by
  by_cases hr : r < st.heap.length
  · obtain ⟨h1, h2, h3, h4, h5⟩ := hinv
    have hlen : (setUser st r f).heap.length = st.heap.length := by
      simp [setUser]
    have husers : (setUser st r f).users = st.users := rfl
    have hkey := setUser_heget st r f hr
    refine ⟨⟨?_, ?_, ?_, ?_, ?_⟩, ?_, ?_, ?_⟩
    · intro x hx
      rw [hlen]
      exact h1 x hx
    · intro x hx
      rw [husers] at hx
      rw [hkey x]
      by_cases hxr : x = r
      · subst hxr
        rw [if_pos rfl, hhash]
        exact h2 x hx
      · rw [if_neg hxr]
        exact h2 x hx
    · intro u hu
      simp only [setUser] at hu
      rcases List.mem_or_eq_of_mem_set hu with h | h
      · exact h3 u h
      · rw [h, hghost]
        exact h3 _ (hget_mem st.heap r hr)
    · have : RegNames (setUser st r f) = RegNames st := by
        unfold RegNames
        rw [husers]
        apply List.map_congr_left
        intro x hx
        rw [hkey x]
        by_cases hxr : x = r
        · subst hxr
          rw [if_pos rfl, hname]
        · rw [if_neg hxr]
      rw [this]
      exact h4
    · intro i hi hh
      rw [hlen] at hi
      rw [hkey i] at hh
      rw [husers]
      by_cases hir : i = r
      · subst hir
        rw [if_pos rfl, hhash] at hh
        exact h5 i hi hh
      · rw [if_neg hir] at hh
        exact h5 i hi hh
    · simp [setUser]
    · intro x hx
      exact hx
    · intro x hx
      rw [hkey x]
      by_cases hxr : x = r
      · subst hxr
        rw [if_pos rfl]
        rcases honline (hget st.heap x) with h | h
        · rw [h]; exact hx
        · exact h
      · rw [if_neg hxr]
        exact hx
  · have : setUser st r f = st := by
      simp only [setUser]
      rw [List.set_eq_of_length_le (Nat.le_of_not_lt hr)]
    rw [this]
    exact ⟨hinv, preserves_refl st⟩

theorem bcryptHash_ne_empty (pw : String) : bcryptHash pw ≠ "" := by
  unfold bcryptHash
  intro h
  have hlen := congrArg String.length h
  rw [String.length_append] at hlen
  have h4 : ("$2a$" : String).length = 4 := by decide
  have h0 : ("" : String).length = 0 := by decide
  rw [h4, h0] at hlen
  omega

theorem userExists_iff (st : ServerState) (name : String) (hinv : StInv st) :
    userExists st name = true ↔ ∃ r ∈ st.users, (hget st.heap r).username = name := by
  unfold userExists
  rw [List.any_eq_true]
  constructor
  · rintro ⟨r, hr, hp⟩
    simp only [decide_eq_true_eq] at hp
    exact ⟨r, hr, hp.1.symm⟩
  · rintro ⟨r, hr, hn⟩
    refine ⟨r, hr, ?_⟩
    simp only [decide_eq_true_eq]
    refine ⟨hn.symm, hinv.2.1 r hr, ?_⟩
    exact hinv.2.2.1 _ (hget_mem st.heap r (hinv.1 r hr))

theorem regNames_mem (st : ServerState) (r : Nat) (hr : r ∈ st.users) :
    (hget st.heap r).username ∈ RegNames st :=
  List.mem_map_of_mem _ hr

/-- Registration step of AUTH: set the digest at `r` and append `r` to
the registry, under the code's own guards. -/
theorem stInv_register (st : ServerState) (r : Nat) (pw : String)
    (hr : r < st.heap.length)
    (hempty : (hget st.heap r).passwordHash = "")
    (hnex : userExists st (hget st.heap r).username = false)
    (hinv : StInv st) :
    StInv { heap := st.heap.set r { hget st.heap r with passwordHash := bcryptHash pw },
            users := st.users ++ [r] }
    ∧ Preserves st { heap := st.heap.set r { hget st.heap r with passwordHash := bcryptHash pw },
                     users := st.users ++ [r] }
    ∧ r ∈ (st.users ++ [r]) := by
  obtain ⟨h1, h2, h3, h4, h5⟩ := hinv
  have hrnot : r ∉ st.users := by
    intro hmem
    exact h2 r hmem hempty
  set v : UserData := { hget st.heap r with passwordHash := bcryptHash pw } with hv
  have hkey : ∀ x, hget (st.heap.set r v) x = if x = r then v else hget st.heap x := by
    intro x
    by_cases hx : x = r
    · subst hx
      rw [if_pos rfl]
      exact hget_set_self _ _ _ hr
    · rw [if_neg hx]
      exact hget_set_ne _ _ _ _ (fun h => hx h.symm)
  have hvname : v.username = (hget st.heap r).username := rfl
  have hvghost : v.ghost = (hget st.heap r).ghost := rfl
  have hvonline : v.online = (hget st.heap r).online := rfl
  have hvhash : v.passwordHash = bcryptHash pw := rfl
  have hnameeq : ∀ x ∈ st.users, (hget (st.heap.set r v) x).username = (hget st.heap x).username := by
    intro x hx
    rw [hkey x]
    by_cases hxr : x = r
    · exact absurd (hxr ▸ hx) hrnot
    · rw [if_neg hxr]
  have hnamenew : (hget (st.heap.set r v) r).username = (hget st.heap r).username := by
    rw [hkey r, if_pos rfl, hvname]
  have hnotin : (hget st.heap r).username ∉ RegNames st := by
    intro hmem
    unfold RegNames at hmem
    rw [List.mem_map] at hmem
    obtain ⟨x, hx, hxn⟩ := hmem
    have hex : userExists st (hget st.heap r).username = true := by
      rw [userExists_iff st _ ⟨h1, h2, h3, h4, h5⟩]
      exact ⟨x, hx, hxn⟩
    rw [hex] at hnex
    exact Bool.noConfusion hnex
  refine ⟨⟨?_, ?_, ?_, ?_, ?_⟩, ⟨?_, ?_, ?_⟩, by simp⟩
  · intro x hx
    simp only [List.length_set]
    rcases List.mem_append.mp hx with h | h
    · exact h1 x h
    · simp at h
      subst h
      exact hr
  · intro x hx
    rcases List.mem_append.mp hx with h | h
    · rw [hkey x]
      by_cases hxr : x = r
      · exact absurd (hxr ▸ h) hrnot
      · rw [if_neg hxr]
        exact h2 x h
    · simp at h
      subst h
      rw [hkey x, if_pos rfl, hvhash]
      exact bcryptHash_ne_empty pw
  · intro u hu
    rcases List.mem_or_eq_of_mem_set hu with h | h
    · exact h3 u h
    · rw [h, hvghost]
      exact h3 _ (hget_mem st.heap r hr)
  · show ((st.users ++ [r]).map (fun x => (hget (st.heap.set r v) x).username)).Nodup
    rw [List.map_append, List.nodup_append]
    refine ⟨?_, by simp, ?_⟩
    · have hmapeq : List.map (fun x => (hget (st.heap.set r v) x).username) st.users = RegNames st :=
        List.map_congr_left hnameeq
      rw [hmapeq]
      exact h4
    · intro a ha hb
      simp only [List.map_cons, List.map_nil, List.mem_singleton] at hb
      rw [List.mem_map] at ha
      obtain ⟨x, hx, hxn⟩ := ha
      rw [hnameeq x hx] at hxn
      apply hnotin
      rw [← hnamenew, ← hb, ← hxn]
      exact regNames_mem st x hx
  · intro i hi hh
    simp only [List.length_set] at hi
    rw [hkey i] at hh
    by_cases hir : i = r
    · subst hir
      simp
    · rw [if_neg hir] at hh
      exact List.mem_append_left _ (h5 i hi hh)
  · simp
  · intro x hx
    exact List.mem_append_left _ hx
  · intro x hx
    rw [hkey x]
    by_cases hxr : x = r
    · subst hxr
      rw [if_pos rfl, hvonline]
      exact hx
    · rw [if_neg hxr]
      exact hx

theorem nodup_map_update (l : List Nat) (g g2 : Nat → String) (r : Nat) (nm : String)
    (hg : ∀ x, x ≠ r → g2 x = g x) (hgr : g2 r = nm)
    (hnm : nm ∉ l.map g) (hnodup : (l.map g).Nodup) : (l.map g2).Nodup := by
  induction l with
  | nil => simp
  | cons x l ih =>
    simp only [List.map_cons, List.nodup_cons] at hnodup ⊢
    have hnm2 : nm ∉ l.map g := by
      intro h
      exact hnm (List.mem_cons_of_mem _ h)
    refine ⟨?_, ih hnm2 hnodup.2⟩
    intro hmem
    rw [List.mem_map] at hmem
    obtain ⟨y, hy, hyx⟩ := hmem
    by_cases hxr : x = r
    · by_cases hyr : y = r
      · apply hnodup.1
        rw [List.mem_map]
        refine ⟨y, hy, ?_⟩
        rw [hyr, ← hxr]
      · rw [hg y hyr, hxr, hgr] at hyx
        apply hnm2
        rw [← hyx]
        exact List.mem_map_of_mem g hy
    · by_cases hyr : y = r
      · rw [hyr, hgr, hg x hxr] at hyx
        apply hnm
        rw [hyx]
        exact List.mem_cons_self _ _
      · rw [hg y hyr, hg x hxr] at hyx
        apply hnodup.1
        rw [← hyx]
        exact List.mem_map_of_mem g hy

/-- Rename step of NAME: set the username at `r`, under the code's guard
that the new name is not registered. -/
theorem stInv_rename (st : ServerState) (r : Nat) (nm : String)
    (hnex : userExists st nm = false)
    (hinv : StInv st) :
    StInv (setUser st r (fun u => { u with username := nm }))
    ∧ Preserves st (setUser st r (fun u => { u with username := nm })) := by
  by_cases hr : r < st.heap.length
  · obtain ⟨h1, h2, h3, h4, h5⟩ := hinv
    have hkey := setUser_heget st r (fun u => { u with username := nm }) hr
    have hnotin : nm ∉ RegNames st := by
      intro hmem
      unfold RegNames at hmem
      rw [List.mem_map] at hmem
      obtain ⟨x, hx, hxn⟩ := hmem
      have hex : userExists st nm = true := by
        rw [userExists_iff st _ ⟨h1, h2, h3, h4, h5⟩]
        exact ⟨x, hx, hxn⟩
      rw [hex] at hnex
      exact Bool.noConfusion hnex
    refine ⟨⟨?_, ?_, ?_, ?_, ?_⟩, ⟨?_, ?_, ?_⟩⟩
    · intro x hx
      simp only [setUser, List.length_set]
      exact h1 x hx
    · intro x hx
      rw [hkey x]
      by_cases hxr : x = r
      · subst hxr
        rw [if_pos rfl]
        exact h2 x hx
      · rw [if_neg hxr]
        exact h2 x hx
    · intro u hu
      simp only [setUser] at hu
      rcases List.mem_or_eq_of_mem_set hu with h | h
      · exact h3 u h
      · rw [h]
        show (hget st.heap r).ghost = false
        exact h3 _ (hget_mem st.heap r hr)
    · show (st.users.map (fun x => (hget (setUser st r _).heap x).username)).Nodup
      apply nodup_map_update st.users (fun x => (hget st.heap x).username)
        (fun x => (hget (setUser st r (fun u => { u with username := nm })).heap x).username) r nm
      · intro x hxr
        rw [hkey x, if_neg hxr]
      · rw [hkey r, if_pos rfl]
      · exact hnotin
      · exact h4
    · intro i hi hh
      simp only [setUser, List.length_set] at hi
      rw [hkey i] at hh
      by_cases hir : i = r
      · subst hir
        rw [if_pos rfl] at hh
        exact h5 i hi hh
      · rw [if_neg hir] at hh
        exact h5 i hi hh
    · simp [setUser]
    · intro x hx
      exact hx
    · intro x hx
      rw [hkey x]
      by_cases hxr : x = r
      · subst hxr
        rw [if_pos rfl]
        exact hx
      · rw [if_neg hxr]
        exact hx
  · have heq : setUser st r (fun u => { u with username := nm }) = st := by
      simp only [setUser]
      rw [List.set_eq_of_length_le (Nat.le_of_not_lt hr)]
    rw [heq]
    exact ⟨hinv, preserves_refl st⟩

/-- Password-change step of AUTH on an already-registered user. -/
theorem stInv_pwchange (st : ServerState) (r : Nat) (pw : String)
    (hmem : r ∈ st.users)
    (hinv : StInv st) :
    StInv (setUser st r (fun u => { u with passwordHash := bcryptHash pw }))
    ∧ Preserves st (setUser st r (fun u => { u with passwordHash := bcryptHash pw })) := by
  obtain ⟨h1, h2, h3, h4, h5⟩ := hinv
  have hr : r < st.heap.length := h1 r hmem
  have hkey := setUser_heget st r (fun u => { u with passwordHash := bcryptHash pw }) hr
  refine ⟨⟨?_, ?_, ?_, ?_, ?_⟩, ⟨?_, ?_, ?_⟩⟩
  · intro x hx
    simp only [setUser, List.length_set]
    exact h1 x hx
  · intro x hx
    rw [hkey x]
    by_cases hxr : x = r
    · rw [if_pos hxr]
      exact bcryptHash_ne_empty pw
    · rw [if_neg hxr]
      exact h2 x hx
  · intro u hu
    simp only [setUser] at hu
    rcases List.mem_or_eq_of_mem_set hu with h | h
    · exact h3 u h
    · rw [h]
      show (hget st.heap r).ghost = false
      exact h3 _ (hget_mem st.heap r hr)
  · show (st.users.map (fun x => (hget (setUser st r _).heap x).username)).Nodup
    have heqmap : st.users.map (fun x => (hget (setUser st r (fun u => { u with passwordHash := bcryptHash pw })).heap x).username) = RegNames st := by
      apply List.map_congr_left
      intro x hx
      rw [hkey x]
      by_cases hxr : x = r
      · subst hxr
        rw [if_pos rfl]
      · rw [if_neg hxr]
    rw [heqmap]
    exact h4
  · intro i hi hh
    simp only [setUser, List.length_set] at hi
    by_cases hir : i = r
    · subst hir
      exact hmem
    · rw [hkey i, if_neg hir] at hh
      exact h5 i hi hh
  · simp [setUser]
  · intro x hx
    exact hx
  · intro x hx
    rw [hkey x]
    by_cases hxr : x = r
    · subst hxr
      rw [if_pos rfl]
      exact hx
    · rw [if_neg hxr]
      exact hx

/-- JOIN's candidate allocation: appending a fresh zero-valued user to
the heap. -/
theorem stInv_alloc (st : ServerState) (name about : String)
    (hinv : StInv st) :
    StInv { heap := st.heap ++ [mkUser name about], users := st.users }
    ∧ Preserves st { heap := st.heap ++ [mkUser name about], users := st.users } := by
  obtain ⟨h1, h2, h3, h4, h5⟩ := hinv
  refine ⟨⟨?_, ?_, ?_, ?_, ?_⟩, ⟨?_, ?_, ?_⟩⟩
  · intro x hx
    simp only [List.length_append, List.length_cons, List.length_nil]
    exact Nat.lt_of_lt_of_le (h1 x hx) (Nat.le_add_right _ _)
  · intro x hx
    rw [hget_append _ _ _ (h1 x hx)]
    exact h2 x hx
  · intro u hu
    rcases List.mem_append.mp hu with h | h
    · exact h3 u h
    · simp at h
      rw [h]
      rfl
  · have heqmap : st.users.map (fun x => (hget (st.heap ++ [mkUser name about]) x).username) = RegNames st := by
      apply List.map_congr_left
      intro x hx
      rw [hget_append _ _ _ (h1 x hx)]
    show (st.users.map (fun x => (hget (st.heap ++ [mkUser name about]) x).username)).Nodup
    rw [heqmap]
    exact h4
  · intro i hi hh
    rcases Nat.lt_or_ge i st.heap.length with h | h
    · rw [hget_append _ _ _ h] at hh
      exact h5 i h hh
    · exfalso
      apply hh
      simp only [List.length_append, List.length_cons, List.length_nil] at hi
      have hieq : i = st.heap.length := by omega
      subst hieq
      unfold hget
      rw [List.getD_eq_getElem?_getD, List.getElem?_append_right (Nat.le_refl _)]
      simp
      rfl
  · simp
  · intro x hx
    exact hx
  · intro x hx
    rcases Nat.lt_or_ge x st.heap.length with h | h
    · rw [hget_append _ _ _ h]
      exact hx
    · exfalso
      unfold hget at hx
      rw [List.getD_eq_getElem?_getD, List.getElem?_eq_none (by simpa using h)] at hx
      simp at hx
      exact Bool.noConfusion hx

/-- `Session.Close` preserves the registry invariant. -/
theorem stInv_close (st : ServerState) (r : Nat) (addr : String)
    (hinv : StInv st) :
    StInv (sessionCloseFn st r addr).1 ∧ Preserves st (sessionCloseFn st r addr).1 := by
  unfold sessionCloseFn
  cases hf : st.users.find? (fun f => (hget st.heap r).username = (hget st.heap f).username) with
  | none => exact ⟨hinv, preserves_refl st⟩
  | some f =>
    dsimp only
    have step1 := stInv_setUser st r
      (fun u => { u with sessions := (hget st.heap f).sessions.filter (fun sess => sess.remoteAddr ≠ addr) })
      (fun v => rfl) (fun v => rfl) (fun v => rfl) (fun v => Or.inl rfl) hinv
    split
    · have step2 := stInv_setUser _ r
        (fun u => { u with away := true, awayReason := "Offline." })
        (fun v => rfl) (fun v => rfl) (fun v => rfl) (fun v => Or.inl rfl) step1.1
      exact ⟨step2.1, preserves_trans step1.2 step2.2⟩
    · exact step1

/-- `Session.SendPM` preserves the registry invariant. -/
theorem stInv_sendPM (st : ServerState) (sref : Nat) (target msg : String)
    (hinv : StInv st) :
    StInv (sendPMFn st sref target msg).1 ∧ Preserves st (sendPMFn st sref target msg).1 := by
  unfold sendPMFn
  cases hf : st.users.find? (fun f => target = (hget st.heap f).username) with
  | none => exact ⟨hinv, preserves_refl st⟩
  | some f =>
    dsimp only
    split
    · exact stInv_setUser st f
        (fun u => { u with pendingPMs := u.pendingPMs ++ [⟨sref, msg⟩] })
        (fun v => rfl) (fun v => rfl) (fun v => rfl) (fun v => Or.inl rfl) hinv
    · exact ⟨hinv, preserves_refl st⟩

/-- The common success tail of AUTH. -/
theorem authTail_sound (st : ServerState) (cs : ConnSession) (r : Nat) (outs : List Output)
    (st1 : ServerState) (cs1 : ConnSession) (out : List Output)
    (hinv : StInv st) (hmem : r ∈ st.users) (hcsr : cs.userRef = some r)
    (hd : authTail st cs r outs = .ok st1 cs1 out) :
    StInv st1 ∧ ConnOk st1 cs1 ∧ Preserves st st1 := by
  have hr : r < st.heap.length := hinv.1 r hmem
  unfold authTail at hd
  injection hd with hst hcs2 hout
  subst hst
  subst hcs2
  have step := stInv_setUser st r
    (fun u => { u with sessions := u.sessions ++ [⟨cs.remoteAddr⟩], online := true, away := false, awayReason := "" })
    (fun v => rfl) (fun v => rfl) (fun v => rfl) (fun v => Or.inr rfl) hinv
  refine ⟨step.1, ⟨?_, ?_⟩, step.2⟩
  · intro x hx
    simp only at hx
    rw [hx] at hcsr
    injection hcsr with hxr
    subst hxr
    exact Nat.lt_of_lt_of_le hr step.2.1
  · intro _
    refine ⟨r, hcsr, step.2.2.1 r hmem, ?_⟩
    rw [setUser_heget st r _ hr, if_pos rfl]

theorem doPing_id (st : ServerState) (cs : ConnSession) (args : List String)
    (st1 : ServerState) (cs1 : ConnSession) (out : List Output)
    (hd : doPing st cs args = .ok st1 cs1 out) : st1 = st ∧ cs1 = cs := by
  unfold doPing at hd
  split at hd <;> (injection hd with h1 h2 _; exact ⟨h1.symm, h2.symm⟩)

theorem doMsg_id (st : ServerState) (cs : ConnSession) (args : List String)
    (st1 : ServerState) (cs1 : ConnSession) (out : List Output)
    (hd : doMsg st cs args = .ok st1 cs1 out) : st1 = st ∧ cs1 = cs := by
  unfold doMsg at hd
  split at hd
  · injection hd with h1 h2 _; exact ⟨h1.symm, h2.symm⟩
  · split at hd
    · injection hd with h1 h2 _; exact ⟨h1.symm, h2.symm⟩
    · split at hd
      · exact StepResult.noConfusion hd
      · split at hd <;> (injection hd with h1 h2 _; exact ⟨h1.symm, h2.symm⟩)

theorem doList_id (st : ServerState) (cs : ConnSession)
    (st1 : ServerState) (cs1 : ConnSession) (out : List Output)
    (hd : doList st cs = .ok st1 cs1 out) : st1 = st ∧ cs1 = cs := by
  unfold doList at hd
  split at hd <;> (injection hd with h1 h2 _; exact ⟨h1.symm, h2.symm⟩)

theorem doInfo_id (st : ServerState) (cs : ConnSession) (args : List String)
    (st1 : ServerState) (cs1 : ConnSession) (out : List Output)
    (hd : doInfo st cs args = .ok st1 cs1 out) : st1 = st ∧ cs1 = cs := by
  unfold doInfo at hd
  split at hd
  · exact StepResult.noConfusion hd
  · split at hd
    · injection hd with h1 h2 _; exact ⟨h1.symm, h2.symm⟩
    · split at hd
      · injection hd with h1 h2 _; exact ⟨h1.symm, h2.symm⟩
      · split at hd
        · injection hd with h1 h2 _; exact ⟨h1.symm, h2.symm⟩
        · split at hd
          · exact StepResult.noConfusion hd
          · injection hd with h1 h2 _; exact ⟨h1.symm, h2.symm⟩

theorem doRaw_id (st : ServerState) (cs : ConnSession) (args : List String)
    (st1 : ServerState) (cs1 : ConnSession) (out : List Output)
    (hd : doRaw st cs args = .ok st1 cs1 out) : st1 = st ∧ cs1 = cs := by
  unfold doRaw at hd
  split at hd
  · exact StepResult.noConfusion hd
  · split at hd
    · injection hd with h1 h2 _; exact ⟨h1.symm, h2.symm⟩
    · split at hd
      · injection hd with h1 h2 _; exact ⟨h1.symm, h2.symm⟩
      · split at hd <;> (injection hd with h1 h2 _; exact ⟨h1.symm, h2.symm⟩)

theorem doDefault_id (st : ServerState) (cs : ConnSession) (cmd : String)
    (st1 : ServerState) (cs1 : ConnSession) (out : List Output)
    (hd : doDefault st cs cmd = .ok st1 cs1 out) : st1 = st ∧ cs1 = cs := by
  unfold doDefault at hd
  injection hd with h1 h2 _; exact ⟨h1.symm, h2.symm⟩

theorem doJoinBody_sound (st : ServerState) (cs : ConnSession) (args : List String)
    (st1 : ServerState) (cs1 : ConnSession) (out : List Output)
    (hinv : StInv st) (hok : ConnOk st cs) (hauth : cs.authenticated = false)
    (hd : doJoinBody st cs args = .ok st1 cs1 out) :
    StInv st1 ∧ ConnOk st1 cs1 ∧ Preserves st st1 := by
  unfold doJoinBody at hd
  split at hd
  · injection hd with h1 h2 _
    subst h1; subst h2
    exact ⟨hinv, hok, preserves_refl _⟩
  · dsimp only at hd
    split at hd <;> split at hd <;>
      (injection hd with h1 h2 _
       subst h1
       subst h2
       refine ⟨(stInv_alloc st _ _ hinv).1, ⟨?_, ?_⟩, (stInv_alloc st _ _ hinv).2⟩)
    · intro x hx
      dsimp only at hx
      exact (stInv_alloc st _ _ hinv).1.1 x (List.mem_of_find?_eq_some hx)
    · intro ha
      dsimp only at ha
      rw [hauth] at ha
      exact Bool.noConfusion ha
    · intro x hx
      dsimp only at hx
      injection hx with hxe
      subst hxe
      simp
    · intro ha
      dsimp only at ha
      rw [hauth] at ha
      exact Bool.noConfusion ha
    · intro x hx
      dsimp only at hx
      exact (stInv_alloc st _ _ hinv).1.1 x (List.mem_of_find?_eq_some hx)
    · intro ha
      dsimp only at ha
      rw [hauth] at ha
      exact Bool.noConfusion ha
    · intro x hx
      dsimp only at hx
      injection hx with hxe
      subst hxe
      simp
    · intro ha
      dsimp only at ha
      rw [hauth] at ha
      exact Bool.noConfusion ha

theorem doJoin_sound (st : ServerState) (cs : ConnSession) (args : List String)
    (st1 : ServerState) (cs1 : ConnSession) (out : List Output)
    (hinv : StInv st) (hok : ConnOk st cs)
    (hd : doJoin st cs args = .ok st1 cs1 out) :
    StInv st1 ∧ ConnOk st1 cs1 ∧ Preserves st st1 := by
  unfold doJoin at hd
  split at hd
  · rename_i r heq
    split at hd
    · injection hd with h1 h2 _
      subst h1; subst h2
      exact ⟨hinv, hok, preserves_refl _⟩
    · rename_i honline
      have hauth : cs.authenticated = false := by
        by_contra hc
        obtain ⟨r2, heq2, _, ho2⟩ := hok.2 (Bool.of_not_eq_false hc ▸ rfl)
        rw [heq] at heq2
        injection heq2 with hre
        subst hre
        exact honline (by rw [ho2])
      exact doJoinBody_sound st cs args st1 cs1 out hinv hok hauth hd
  · rename_i heq
    have hauth : cs.authenticated = false := by
      by_contra hc
      obtain ⟨r2, heq2, _, _⟩ := hok.2 (Bool.of_not_eq_false hc ▸ rfl)
      rw [heq] at heq2
      exact Option.noConfusion heq2
    exact doJoinBody_sound st cs args st1 cs1 out hinv hok hauth hd

theorem doQuit_sound (st : ServerState) (cs : ConnSession)
    (st1 : ServerState) (cs1 : ConnSession) (out : List Output)
    (hinv : StInv st) (hok : ConnOk st cs)
    (hd : doQuit st cs = .ok st1 cs1 out) :
    StInv st1 ∧ ConnOk st1 cs1 ∧ Preserves st st1 := by
  unfold doQuit at hd
  split at hd
  · exact StepResult.noConfusion hd
  · rename_i r heq
    injection hd with h1 h2 _
    subst h1; subst h2
    have hc := stInv_close st r cs.remoteAddr hinv
    exact ⟨hc.1, connOk_mono hok hc.2, hc.2⟩

theorem doPM_sound (st : ServerState) (cs : ConnSession) (args : List String)
    (st1 : ServerState) (cs1 : ConnSession) (out : List Output)
    (hinv : StInv st) (hok : ConnOk st cs)
    (hd : doPM st cs args = .ok st1 cs1 out) :
    StInv st1 ∧ ConnOk st1 cs1 ∧ Preserves st st1 := by
  unfold doPM at hd
  split at hd
  · injection hd with h1 h2 _
    subst h1; subst h2
    exact ⟨hinv, hok, preserves_refl _⟩
  · split at hd
    · injection hd with h1 h2 _
      subst h1; subst h2
      exact ⟨hinv, hok, preserves_refl _⟩
    · split at hd
      · injection hd with h1 h2 _
        subst h1; subst h2
        exact ⟨hinv, hok, preserves_refl _⟩
      · split at hd
        · exact StepResult.noConfusion hd
        · rename_i sref heq
          injection hd with h1 h2 _
          subst h1; subst h2
          have hc := stInv_sendPM st sref (args.headD "") (args.getD 1 "") hinv
          exact ⟨hc.1, connOk_mono hok hc.2, hc.2⟩

theorem doName_sound (st : ServerState) (cs : ConnSession) (args : List String)
    (st1 : ServerState) (cs1 : ConnSession) (out : List Output)
    (hinv : StInv st) (hok : ConnOk st cs)
    (hd : doName st cs args = .ok st1 cs1 out) :
    StInv st1 ∧ ConnOk st1 cs1 ∧ Preserves st st1 := by
  unfold doName at hd
  split at hd
  · injection hd with h1 h2 _
    subst h1; subst h2
    exact ⟨hinv, hok, preserves_refl _⟩
  · split at hd
    · exact StepResult.noConfusion hd
    · rename_i r heq
      split at hd
      · injection hd with h1 h2 _
        subst h1; subst h2
        exact ⟨hinv, hok, preserves_refl _⟩
      · split at hd
        · injection hd with h1 h2 _
          subst h1; subst h2
          exact ⟨hinv, hok, preserves_refl _⟩
        · rename_i hnex
          have hnex2 : userExists st (args.getD 1 "") = false := by
            simpa using hnex
          have hc := stInv_rename st r (args.getD 1 "") hnex2 hinv
          split at hd <;>
            (injection hd with h1 h2 _
             subst h1
             subst h2
             exact ⟨hc.1, connOk_mono hok hc.2, hc.2⟩)

theorem doAway_sound (st : ServerState) (cs : ConnSession) (args : List String)
    (st1 : ServerState) (cs1 : ConnSession) (out : List Output)
    (hinv : StInv st) (hok : ConnOk st cs)
    (hd : doAway st cs args = .ok st1 cs1 out) :
    StInv st1 ∧ ConnOk st1 cs1 ∧ Preserves st st1 := by
  unfold doAway at hd
  split at hd
  · exact StepResult.noConfusion hd
  · rename_i r heq
    split at hd
    · injection hd with h1 h2 _
      subst h1; subst h2
      exact ⟨hinv, hok, preserves_refl _⟩
    · dsimp only at hd
      split at hd
      · injection hd with h1 h2 _
        subst h1; subst h2
        have s1 := stInv_setUser st r (fun v => { v with away := false })
          (fun v => rfl) (fun v => rfl) (fun v => rfl) (fun v => Or.inl rfl) hinv
        have s2 := stInv_setUser _ r (fun v => { v with awayAnnounce := false, awayReason := "" })
          (fun v => rfl) (fun v => rfl) (fun v => rfl) (fun v => Or.inl rfl) s1.1
        exact ⟨s2.1, connOk_mono hok (preserves_trans s1.2 s2.2), preserves_trans s1.2 s2.2⟩
      · have s1 := stInv_setUser st r (fun v => { v with away := true })
          (fun v => rfl) (fun v => rfl) (fun v => rfl) (fun v => Or.inl rfl) hinv
        split at hd
        · have s2 := stInv_setUser _ r (fun v => { v with awayReason := args.headD "" })
            (fun v => rfl) (fun v => rfl) (fun v => rfl) (fun v => Or.inl rfl) s1.1
          split at hd
          · have s3 := stInv_setUser _ r (fun v => { v with awayAnnounce := true })
              (fun v => rfl) (fun v => rfl) (fun v => rfl) (fun v => Or.inl rfl) s2.1
            injection hd with h1 h2 _
            subst h1; subst h2
            have hp := preserves_trans (preserves_trans s1.2 s2.2) s3.2
            exact ⟨s3.1, connOk_mono hok hp, hp⟩
          · injection hd with h1 h2 _
            subst h1; subst h2
            have hp := preserves_trans s1.2 s2.2
            exact ⟨s2.1, connOk_mono hok hp, hp⟩
        · injection hd with h1 h2 _
          subst h1; subst h2
          exact ⟨s1.1, connOk_mono hok s1.2, s1.2⟩

theorem doAuth_sound (st : ServerState) (cs : ConnSession) (args : List String)
    (st1 : ServerState) (cs1 : ConnSession) (out : List Output)
    (hinv : StInv st) (hok : ConnOk st cs)
    (hd : doAuth st cs args = .ok st1 cs1 out) :
    StInv st1 ∧ ConnOk st1 cs1 ∧ Preserves st st1 := by
  unfold doAuth at hd
  split at hd
  · injection hd with h1 h2 _
    subst h1; subst h2
    exact ⟨hinv, hok, preserves_refl _⟩
  · dsimp only at hd
    split at hd
    · rename_i hauth
      split at hd
      · exact StepResult.noConfusion hd
      · rename_i r heq
        injection hd with h1 h2 _
        subst h1; subst h2
        obtain ⟨r2, heq2, hmem, _⟩ := hok.2 hauth
        rw [heq] at heq2
        injection heq2 with hre
        subst hre
        have hc := stInv_pwchange st r (args.headD "") hmem hinv
        exact ⟨hc.1, connOk_mono hok hc.2, hc.2⟩
    · split at hd
      · exact StepResult.noConfusion hd
      · rename_i r heq
        split at hd
        · rename_i hhash
          split at hd
          · have hlt : r < st.heap.length := hok.1 r heq
            have hmem := hinv.2.2.2.2 r hlt hhash
            exact authTail_sound st cs r _ st1 cs1 out hinv hmem heq hd
          · injection hd with h1 h2 _
            subst h1; subst h2
            exact ⟨hinv, hok, preserves_refl _⟩
        · rename_i hhash
          split at hd
          · injection hd with h1 h2 _
            subst h1; subst h2
            exact ⟨hinv, hok, preserves_refl _⟩
          · rename_i hnex
            have hempty : (hget st.heap r).passwordHash = "" := not_ne_iff.mp hhash
            have hnex2 : userExists st (hget st.heap r).username = false := by
              simpa using hnex
            have hlt : r < st.heap.length := hok.1 r heq
            have reg := stInv_register st r (args.headD "") hlt hempty hnex2 hinv
            have tail := authTail_sound
              { heap := st.heap.set r { hget st.heap r with passwordHash := bcryptHash (args.headD "") },
                users := st.users ++ [r] }
              cs r _ st1 cs1 out reg.1 reg.2.2 heq hd
            exact ⟨tail.1, tail.2.1, preserves_trans reg.2.1 tail.2.2⟩

theorem dispatch_sound (st : ServerState) (cs : ConnSession) (p : List String)
    (st1 : ServerState) (cs1 : ConnSession) (out : List Output)
    (hinv : StInv st) (hok : ConnOk st cs)
    (hd : dispatch st cs p = .ok st1 cs1 out) :
    StInv st1 ∧ ConnOk st1 cs1 ∧ Preserves st st1 := by
  unfold dispatch at hd
  by_cases hc0 : p.headD "" = "PING"
  · rw [if_pos hc0] at hd
    obtain ⟨e1, e2⟩ := doPing_id _ _ _ _ _ _ hd
    subst e1; subst e2
    exact ⟨hinv, hok, preserves_refl _⟩
  · rw [if_neg hc0] at hd
    by_cases hc1 : p.headD "" = "PONG"
    · rw [if_pos hc1] at hd
      injection hd with e1 e2 _
      subst e1; subst e2
      exact ⟨hinv, hok, preserves_refl _⟩
    · rw [if_neg hc1] at hd
      by_cases hc2 : p.headD "" = "JOIN"
      · rw [if_pos hc2] at hd
        exact doJoin_sound _ _ _ _ _ _ hinv hok hd
      · rw [if_neg hc2] at hd
        by_cases hc3 : p.headD "" = "AUTH"
        · rw [if_pos hc3] at hd
          exact doAuth_sound _ _ _ _ _ _ hinv hok hd
        · rw [if_neg hc3] at hd
          by_cases hc4 : p.headD "" = "QUIT"
          · rw [if_pos hc4] at hd
            exact doQuit_sound _ _ _ _ _ hinv hok hd
          · rw [if_neg hc4] at hd
            by_cases hc5 : p.headD "" = "MSG"
            · rw [if_pos hc5] at hd
              obtain ⟨e1, e2⟩ := doMsg_id _ _ _ _ _ _ hd
              subst e1; subst e2
              exact ⟨hinv, hok, preserves_refl _⟩
            · rw [if_neg hc5] at hd
              by_cases hc6 : p.headD "" = "PM"
              · rw [if_pos hc6] at hd
                exact doPM_sound _ _ _ _ _ _ hinv hok hd
              · rw [if_neg hc6] at hd
                by_cases hc7 : p.headD "" = "LIST"
                · rw [if_pos hc7] at hd
                  obtain ⟨e1, e2⟩ := doList_id _ _ _ _ _ hd
                  subst e1; subst e2
                  exact ⟨hinv, hok, preserves_refl _⟩
                · rw [if_neg hc7] at hd
                  by_cases hc8 : p.headD "" = "NAME"
                  · rw [if_pos hc8] at hd
                    exact doName_sound _ _ _ _ _ _ hinv hok hd
                  · rw [if_neg hc8] at hd
                    by_cases hc9 : p.headD "" = "INFO"
                    · rw [if_pos hc9] at hd
                      obtain ⟨e1, e2⟩ := doInfo_id _ _ _ _ _ _ hd
                      subst e1; subst e2
                      exact ⟨hinv, hok, preserves_refl _⟩
                    · rw [if_neg hc9] at hd
                      by_cases hc10 : p.headD "" = "RAW"
                      · rw [if_pos hc10] at hd
                        obtain ⟨e1, e2⟩ := doRaw_id _ _ _ _ _ _ hd
                        subst e1; subst e2
                        exact ⟨hinv, hok, preserves_refl _⟩
                      · rw [if_neg hc10] at hd
                        by_cases hc11 : p.headD "" = "AWAY"
                        · rw [if_pos hc11] at hd
                          exact doAway_sound _ _ _ _ _ _ hinv hok hd
                        · rw [if_neg hc11] at hd
                          obtain ⟨e1, e2⟩ := doDefault_id _ _ _ _ _ _ hd
                          subst e1; subst e2
                          exact ⟨hinv, hok, preserves_refl _⟩

theorem sysStep_inv {s s2 : Sys} (hinv : SysInv s) (hstep : SysStep s s2) : SysInv s2 := by
  cases hstep with
  | connect addr =>
    refine ⟨hinv.1, ?_⟩
    intro cs hcs
    rcases List.mem_append.mp hcs with h | h
    · exact hinv.2 cs h
    · simp at h
      subst h
      exact ⟨fun r hr => Option.noConfusion hr, fun ha => Bool.noConfusion ha⟩
  | packet i cs p st1 cs1 out hcs hd =>
    have hcsok : ConnOk s.st cs := hinv.2 cs (List.get?_mem hcs)
    have hs := dispatch_sound s.st cs p st1 cs1 out hinv.1 hcsok hd
    refine ⟨hs.1, ?_⟩
    intro c hc
    rcases List.mem_or_eq_of_mem_set hc with h | h
    · exact connOk_mono (hinv.2 c h) hs.2.2
    · subst h
      exact hs.2.1
  | disconnect i cs r hcs hr =>
    have hc := stInv_close s.st r cs.remoteAddr hinv.1
    refine ⟨hc.1, ?_⟩
    intro c hcmem
    exact connOk_mono (hinv.2 c (List.mem_of_mem_eraseIdx hcmem)) hc.2

theorem sysInv_init : SysInv initSys := by
  refine ⟨⟨?_, ?_, ?_, ?_, ?_⟩, ?_⟩ <;> simp [initSys, RegNames]

theorem reachable_inv (s : Sys) (h : Reachable s) : SysInv s := by
  unfold Reachable at h
  induction h with
  | refl => exact sysInv_init
  | tail _ hstep ih => exact sysStep_inv ih hstep

theorem uniq_of_stInv (st : ServerState) (hinv : StInv st) :
    ∀ i j, i < st.heap.length → j < st.heap.length → i ≠ j →
      (hget st.heap i).passwordHash ≠ "" → (hget st.heap j).passwordHash ≠ "" →
      (hget st.heap i).username ≠ (hget st.heap j).username := by
  intro i j hi hj hne hhi hhj heq
  have hmi := hinv.2.2.2.2 i hi hhi
  have hmj := hinv.2.2.2.2 j hj hhj
  have hnd : (st.users.map (fun r => (hget st.heap r).username)).Nodup := hinv.2.2.2.1
  exact hne (List.inj_on_of_nodup_map hnd hmi hmj heq)

theorem splitCRLF_ne_nil (xs : List Char) : splitCRLF xs ≠ [] := by
  unfold splitCRLF
  split
  · simp
  · simp
  · split <;> simp

theorem splitCRLF_cons_ne (c : Char) (rest : List Char)
    (h : ∀ rest1, c = '\r' → rest = '\n' :: rest1 → False) :
    splitCRLF (c :: rest) =
      match splitCRLF rest with
      | [] => [[c]]
      | p :: ps => (c :: p) :: ps := by
  rw [splitCRLF.eq_def]
  split
  · simp_all
  · rename_i heq
    injection heq with h1 h2
    exact absurd (h _ h1 h2) (fun x => x)
  · rename_i heq
    injection heq with h1 h2
    subst h1; subst h2
    rfl

theorem splitCRLF_append_sep (pre ys : List Char) :
    splitCRLF (pre ++ '\r' :: '\n' :: ys) = splitCRLF pre ++ splitCRLF ys := by
  induction pre using splitCRLF.induct with
  | case1 => simp [splitCRLF]
  | case2 rest ih => simp [splitCRLF, ih]
  | case3 c rest h ih ih1 =>
    exact absurd ih (splitCRLF_ne_nil rest)
  | case4 c rest h p ps hps ih1 =>
    have hL : splitCRLF (c :: (rest ++ '\r' :: '\n' :: ys)) =
        match splitCRLF (rest ++ '\r' :: '\n' :: ys) with
        | [] => [[c]]
        | p :: ps => (c :: p) :: ps := by
      apply splitCRLF_cons_ne
      intro rest1 hc hr
      rcases rest with _ | ⟨d, rest2⟩
      · simp at hr
      · injection hr with hd _
        exact h rest2 hc (by rw [hd])
    have hR : splitCRLF (c :: rest) = (c :: p) :: ps := by
      rw [splitCRLF_cons_ne c rest ?hne, hps]
      intro rest1 hc hr
      exact h rest1 hc hr
    rw [List.cons_append, hL, ih1, hps, hR]
    rfl

theorem decodeBuffer_append_aligned (a b : String)
    (h : ∃ pre : List Char, a.data = pre ++ ['\r', '\n']) :
    decodeBuffer (a ++ b) = decodeBuffer a ++ decodeBuffer b := by
  obtain ⟨pre, hpre⟩ := h
  unfold decodeBuffer
  rw [String.data_append, hpre]
  have h1 : (pre ++ ['\r', '\n']) ++ b.data = pre ++ '\r' :: '\n' :: b.data := by simp
  have h2 : pre ++ ['\r', '\n'] = pre ++ '\r' :: '\n' :: ([] : List Char) := by simp
  rw [h1, h2, splitCRLF_append_sep, splitCRLF_append_sep]
  have h3 : splitCRLF ([] : List Char) = [[]] := rfl
  rw [h3]
  simp [List.filter_append]

theorem broadcastSessions_eq (sessions : List SessRec) (fromAddr rec : String) :
    broadcastSessions sessions fromAddr rec
      = (sessions.filter (fun sess => sess.remoteAddr ≠ fromAddr)).map
          (fun sess => Output.write sess.remoteAddr rec) := by
  induction sessions with
  | nil => rfl
  | cons sess rest ih =>
    by_cases hs : sess.remoteAddr = fromAddr
    · simp [broadcastSessions, hs, ih]
    · simp [broadcastSessions, hs, ih]

theorem broadcastUsers_eq (heap : List UserData) (refs : List Nat) (fromAddr rec : String) :
    broadcastUsers heap refs fromAddr rec
      = ((allSessions heap refs).filter (fun sess => sess.remoteAddr ≠ fromAddr)).map
          (fun sess => Output.write sess.remoteAddr rec) := by
  induction refs with
  | nil => rfl
  | cons r rest ih =>
    simp [broadcastUsers, allSessions, List.filter_append, ih, broadcastSessions_eq]

theorem sendListEntries_eq (us : List UserData) : sendListEntries us = rosterSpec us := by
  induction us with
  | nil => rfl
  | cons u rest ih =>
    by_cases hg : u.ghost
    · simp [sendListEntries, rosterSpec, hg, List.filter_cons] at *
      simp [ih, hg]
    · by_cases ho : u.online
      · simp [sendListEntries, rosterSpec, hg, ho, List.filter_cons] at *
        simp [ih, hg, ho]
      · simp [sendListEntries, rosterSpec, hg, ho, List.filter_cons] at *
        simp [ih, hg, ho]

theorem roster_mem (us : List UserData) (e : String) :
    e ∈ sendListEntries us
      ↔ ∃ u, u ∈ us ∧ u.ghost = false ∧ u.online = true ∧ e = rosterEntry u := by
  rw [sendListEntries_eq]
  unfold rosterSpec
  simp only [List.mem_map, List.mem_filter]
  constructor
  · rintro ⟨u, hu, he⟩
    simp only [decide_eq_true_eq] at hu
    exact ⟨u, hu.1, hu.2.1, hu.2.2, he.symm⟩
  · rintro ⟨u, hu, hg, ho, he⟩
    refine ⟨u, ?_, he.symm⟩
    simp only [decide_eq_true_eq]
    exact ⟨hu, hg, ho⟩

theorem encode_kill (reason : String) : encode ["KILL", reason] = "KILL\x01" ++ reason ++ "\r\n" := by
  unfold encode joinSOH
  rw [show joinSOH [reason] = reason from rfl,
    show ("KILL" ++ "\x01" : String) = "KILL\x01" from by decide]

end GoSCP

namespace GoSCP

/-- C4: at every reachable process state, for each username at most one
registered user (non-empty password digest) owns it; and an AUTH that
tries to register a username that is already registered fails, leaving
the registry, the candidate user and the session unchanged, with only
the "already taken" reply emitted. -/
theorem c4_registered_username_unique (s : Sys) (hreach : Reachable s) :
    (∀ i j, i < s.st.heap.length → j < s.st.heap.length → i ≠ j →
      (hget s.st.heap i).passwordHash ≠ "" → (hget s.st.heap j).passwordHash ≠ "" →
      (hget s.st.heap i).username ≠ (hget s.st.heap j).username)
    ∧ (∀ (st : ServerState) (cs : ConnSession) (r : Nat) (pw : String),
        cs.userRef = some r → cs.authenticated = false →
        (hget st.heap r).passwordHash = "" →
        userExists st (hget st.heap r).username = true →
        dispatch st cs ["AUTH", pw]
          = .ok st cs [sendAuthMsgOut cs.remoteAddr
              ("The username " ++ (hget st.heap r).username
                ++ " is already taken. Please change your username and try again. Ex: [u]/nick MyNewUsername[/u]")]) := by
  constructor
  · exact uniq_of_stInv s.st (reachable_inv s hreach).1
  · intro st cs r pw hcsr hauth hempty hex
    show doAuth st cs [pw] = _
    unfold doAuth
    simp [hcsr, hauth, hempty, hex]

/-- Witness for C4: at the initial state (reachable by zero steps) and
at a concrete registry where "alice" is registered, a candidate session
also named "alice" is rejected by AUTH without any state change. -/
theorem c4_registered_username_unique_witness :
    dispatch c4wSt c4wCs ["AUTH", "zzz"]
      = .ok c4wSt c4wCs [sendAuthMsgOut "c1"
          ("The username " ++ (hget c4wSt.heap 1).username
            ++ " is already taken. Please change your username and try again. Ex: [u]/nick MyNewUsername[/u]")] :=
  (c4_registered_username_unique initSys Relation.ReflTransGen.refl).2 c4wSt c4wCs 1 "zzz" rfl rfl (by decide) (by decide)

/-- C2 (amended): a broadcast is delivered exactly once to every session
of every registered user whose remote address differs from the
originating connection's remote address — exclusion is by remote
address only, so the sender's other concurrent sessions do receive the
broadcast. -/
theorem c2_broadcast_excludes_only_origin_address (st : ServerState) (sender fromAddr msg : String) :
    broadcastMsgOutputs st sender fromAddr msg
      = ((allSessions st.heap st.users).filter (fun sess => sess.remoteAddr ≠ fromAddr)).map
          (fun sess => Output.write sess.remoteAddr (encode ["MSG", sender, msg])) :=
  broadcastUsers_eq st.heap st.users fromAddr (encode ["MSG", sender, msg])

/-- C5 (amended): the server does not buffer partial records across
reads — each read's buffer is decoded on its own; whenever every read
ends on a record boundary (ends with CRLF), that per-read decoding
agrees with decoding the concatenated stream. -/
theorem c5_decode_concat_when_reads_aligned (reads : List String)
    (h : ∀ b ∈ reads, ∃ pre : List Char, b.data = pre ++ ['\r', '\n']) :
    decodeReads reads = decodeBuffer (concatReads reads) := by
  induction reads with
  | nil => rfl
  | cons b bs ih =>
    have hb := h b (by simp)
    have hbs : ∀ x ∈ bs, ∃ pre : List Char, x.data = pre ++ ['\r', '\n'] := by
      intro x hx; exact h x (by simp [hx])
    show decodeBuffer b ++ decodeReads bs = decodeBuffer (b ++ concatReads bs)
    rw [decodeBuffer_append_aligned b (concatReads bs) hb, ih hbs]

/-- C6: when closing a session removes the last of its user's attached
sessions, the user is marked away with reason "Offline." and the online
flag keeps its previous value; when other sessions remain, away,
awayReason and online are all unchanged. -/
theorem c6_last_detach_sets_away (st : ServerState) (r : Nat) (addr : String)
    (hr : r < st.heap.length)
    (hfind : st.users.find? (fun f => (hget st.heap r).username = (hget st.heap f).username) = some r) :
    ((hget st.heap r).sessions.filter (fun sess => sess.remoteAddr ≠ addr) = [] →
      (hget (sessionCloseFn st r addr).1.heap r).away = true
        ∧ (hget (sessionCloseFn st r addr).1.heap r).awayReason = "Offline."
        ∧ (hget (sessionCloseFn st r addr).1.heap r).online = (hget st.heap r).online)
    ∧ ((hget st.heap r).sessions.filter (fun sess => sess.remoteAddr ≠ addr) ≠ [] →
      (hget (sessionCloseFn st r addr).1.heap r).away = (hget st.heap r).away
        ∧ (hget (sessionCloseFn st r addr).1.heap r).awayReason = (hget st.heap r).awayReason
        ∧ (hget (sessionCloseFn st r addr).1.heap r).online = (hget st.heap r).online) := by
  have hr1 : r < (st.heap.set r { hget st.heap r with
      sessions := (hget st.heap r).sessions.filter (fun sess => sess.remoteAddr ≠ addr) }).length := by
    simpa using hr
  unfold sessionCloseFn
  rw [hfind]
  simp only [setUser, hget_set_self _ _ _ hr]
  split
  · rename_i hc
    have hemp : (hget st.heap r).sessions.filter (fun sess => sess.remoteAddr ≠ addr) = [] :=
      List.eq_nil_of_length_eq_zero (Nat.le_zero.mp hc)
    constructor
    · intro _
      refine ⟨?_, ?_, ?_⟩ <;>
        simp [hget_set_self _ _ _ hr1, hget_set_self _ _ _ hr]
    · intro hne
      exact absurd hemp hne
  · rename_i hc
    have hne : (hget st.heap r).sessions.filter (fun sess => sess.remoteAddr ≠ addr) ≠ [] := by
      intro hemp
      exact hc (by rw [hemp]; exact Nat.le_refl 0)
    constructor
    · intro hemp
      exact absurd hemp hne
    · intro _
      refine ⟨?_, ?_, ?_⟩ <;> simp [hget_set_self _ _ _ hr]

/-- C7: the LIST reply renders exactly the online, non-ghost users of
the registry (never a ghost user, never an offline user), each as
"[flags] username - about" with the flags string built in the fixed
order O then optionally M, A, R, B. -/
theorem c7_list_exactly_online_nonghost (st : ServerState) (addr : String) :
    sendListOut st addr
      = .write addr (encode ["LIST", joinSOH (rosterSpec (st.users.map (hget st.heap)))])
    ∧ ∀ e, e ∈ sendListEntries (st.users.map (hget st.heap))
        ↔ ∃ u, u ∈ st.users.map (hget st.heap) ∧ u.ghost = false ∧ u.online = true ∧ e = rosterEntry u := by
  constructor
  · unfold sendListOut
    rw [sendListEntries_eq]
  · intro e
    exact roster_mem (st.users.map (hget st.heap)) e

/-- C8: Kill with a non-empty reason writes the record KILL SOH reason
to the socket twice (once raw, once via Write, identical bytes) before
the teardown outputs of Close, and the resulting state is exactly the
Close state; Kill with an empty reason writes a single "KILL" record. -/
theorem c8_kill_record_writes (st : ServerState) (r : Nat) (addr reason : String) (h : reason ≠ "") :
    (sessionKill st r addr reason).2
      = [Output.write addr ("KILL\x01" ++ reason ++ "\r\n"),
         Output.write addr ("KILL\x01" ++ reason ++ "\r\n")] ++ (sessionCloseFn st r addr).2
    ∧ (sessionKill st r addr reason).1 = (sessionCloseFn st r addr).1
    ∧ (sessionKill st r addr "").2 = [Output.write addr "KILL\r\n"] ++ (sessionCloseFn st r addr).2 := by
  refine ⟨?_, rfl, ?_⟩
  · unfold sessionKill
    rw [if_neg h, encode_kill]
  · unfold sessionKill
    rw [if_pos rfl]
    have h2 : encode ["KILL"] = "KILL\r\n" := by decide
    rw [h2]

/-- C9: a QUIT record closes the session's socket and detaches the
session from its user (no session with its remote address remains
attached), but does not end the packet loop: the remaining records of
the same read buffer are processed from the post-close state with the
same session value. -/
theorem c9_quit_continues_packet_loop (st : ServerState) (cs : ConnSession) (r : Nat) (rest : List (List String))
    (hr : cs.userRef = some r)
    (hfind : st.users.find? (fun f => (hget st.heap r).username = (hget st.heap f).username) = some r)
    (hrlt : r < st.heap.length) :
    processPackets st cs (["QUIT"] :: rest)
      = (match processPackets (sessionCloseFn st r cs.remoteAddr).1 cs rest with
         | RunResult.panic => RunResult.panic
         | RunResult.ok st2 cs2 out2 => RunResult.ok st2 cs2 ((sessionCloseFn st r cs.remoteAddr).2 ++ out2))
    ∧ Output.closeSocket cs.remoteAddr ∈ (sessionCloseFn st r cs.remoteAddr).2
    ∧ ∀ sess ∈ (hget (sessionCloseFn st r cs.remoteAddr).1.heap r).sessions,
        sess.remoteAddr ≠ cs.remoteAddr := by
  refine ⟨?_, ?_, ?_⟩
  · have hd : dispatch st cs ["QUIT"]
        = StepResult.ok (sessionCloseFn st r cs.remoteAddr).1 cs (sessionCloseFn st r cs.remoteAddr).2 := by
      have hd0 : dispatch st cs ["QUIT"] = doQuit st cs := rfl
      rw [hd0]
      unfold doQuit
      rw [hr]
    simp only [processPackets, hd]
  · unfold sessionCloseFn
    rw [hfind]
    split
    · rename_i heq
      simp at heq
    · rename_i f heq
      dsimp only
      split <;> simp
  · intro sess hs
    have hr1 : r < (st.heap.set r { hget st.heap r with
        sessions := (hget st.heap r).sessions.filter (fun s2 => s2.remoteAddr ≠ cs.remoteAddr) }).length := by
      simpa using hrlt
    unfold sessionCloseFn at hs
    rw [hfind] at hs
    split at hs
    · rename_i heq
      simp at heq
    · rename_i f heq
      injection heq with hf
      subst hf
      simp only [setUser, hget_set_self _ _ _ hrlt] at hs
      split at hs
      · simp only [hget_set_self _ _ _ hr1, hget_set_self _ _ _ hrlt] at hs
        have := List.of_mem_filter hs
        simpa using this
      · simp only [hget_set_self _ _ _ hrlt] at hs
        have := List.of_mem_filter hs
        simpa using this

end GoSCP

namespace GoSCP

/-- C1: a PM sent to a user with zero attached sessions is queued; on
that user's next successful authentication every queued message is
written to the authenticating session — but the queue is NOT cleared:
after the flush the user's `PendingPMs` still holds the message, so it
is re-delivered on every later authentication (the source has no reset
of `PendingPMs` after the flush loop). -/
theorem c1_pending_pms_flushed_but_not_cleared :
    (stepState (dispatch c1State c1Session ["AUTH", "pw"])).map
        (fun st => (hget st.heap 0).pendingPMs) = some [⟨1, "hello"⟩]
    ∧ Output.write "a1" (encode ["PM", "bob", "hello"])
        ∈ stepOut (dispatch c1State c1Session ["AUTH", "pw"]) := by
  decide

/-- Counterexample to C2 as stated: with user "alice" holding two
concurrent sessions "a1" and "a2", a broadcast originating from "a1"
with sender username "alice" is delivered to "a2" — a session belonging
to the sender's own username. -/
theorem c2_broadcast_reaches_sender_other_session :
    (hget c2State.heap 0).username = "alice"
    ∧ SessRec.mk "a2" ∈ (hget c2State.heap 0).sessions
    ∧ Output.write "a2" (encode ["MSG", "alice", "hi"])
        ∈ broadcastMsgOutputs c2State "alice" "a1" "hi" := by
  decide

/-- C3: an AUTH with one argument on a fresh connection (no JOIN, so no
user attached) is not ignored — the source dereferences the nil
`session.User` and panics, which crashes the whole process. -/
theorem c3_auth_without_user_crashes :
    dispatch { heap := [], users := [] } (freshSession "a1") ["AUTH", "hunter2"]
      = .panic := by
  decide

/-- Counterexample to C5 as stated: the byte stream "PING\x01hello\r\n"
presented as the two reads "PIN" and "G\x01hello\r\n" decodes to two
fragment records, not to the single record of the concatenated
stream. -/
theorem c5_straddled_record_not_reassembled :
    decodeReads ["PIN", "G\x01hello\r\n"]
      ≠ decodeBuffer (concatReads ["PIN", "G\x01hello\r\n"]) := by
  decide

/-- Witness for C5 (amended): two reads that both end on a record
boundary decode the same way as the concatenated stream. -/
theorem c5_decode_concat_when_reads_aligned_witness :
    decodeReads ["PING\x01a\r\n", "LIST\r\n"]
      = decodeBuffer (concatReads ["PING\x01a\r\n", "LIST\r\n"]) :=
  c5_decode_concat_when_reads_aligned ["PING\x01a\r\n", "LIST\r\n"] (by
    intro b hb
    rcases List.mem_cons.mp hb with h | h
    · exact ⟨("PING\x01a" : String).data, by rw [h]; decide⟩
    · rcases List.mem_cons.mp h with h2 | h2
      · exact ⟨("LIST" : String).data, by rw [h2]; decide⟩
      · exact absurd h2 (by simp))

/-- Witness for C6: closing the only session of the online user "alice"
marks her away with reason "Offline." and leaves online untouched. -/
theorem c6_last_detach_sets_away_witness :
    (hget (sessionCloseFn c6State 0 "a1").1.heap 0).away = true
    ∧ (hget (sessionCloseFn c6State 0 "a1").1.heap 0).awayReason = "Offline."
    ∧ (hget (sessionCloseFn c6State 0 "a1").1.heap 0).online = (hget c6State.heap 0).online :=
  (c6_last_detach_sets_away c6State 0 "a1" (by decide) (by decide)).1 (by decide)

/-- Witness for C8: killing with reason "bye" writes the same
KILL-with-reason record twice and then tears down; killing with an
empty reason writes a single "KILL" record. -/
theorem c8_kill_record_writes_witness :
    (sessionKill c8State 0 "a1" "bye").2
      = [Output.write "a1" ("KILL\x01" ++ "bye" ++ "\r\n"),
         Output.write "a1" ("KILL\x01" ++ "bye" ++ "\r\n")] ++ (sessionCloseFn c8State 0 "a1").2
    ∧ (sessionKill c8State 0 "a1" "bye").1 = (sessionCloseFn c8State 0 "a1").1
    ∧ (sessionKill c8State 0 "a1" "").2
        = [Output.write "a1" "KILL\r\n"] ++ (sessionCloseFn c8State 0 "a1").2 :=
  c8_kill_record_writes c8State 0 "a1" "bye" (by decide)

/-- Witness for C9: after a QUIT record the following PING of the same
read buffer is still dispatched, the socket-close event is emitted, and
the session's user has no session with this connection's address left. -/
theorem c9_quit_continues_packet_loop_witness :
    processPackets c9State c9Session (["QUIT"] :: [["PING", "tok"]])
      = (match processPackets (sessionCloseFn c9State 0 c9Session.remoteAddr).1 c9Session [["PING", "tok"]] with
         | RunResult.panic => RunResult.panic
         | RunResult.ok st2 cs2 out2 =>
             RunResult.ok st2 cs2 ((sessionCloseFn c9State 0 c9Session.remoteAddr).2 ++ out2))
    ∧ Output.closeSocket c9Session.remoteAddr ∈ (sessionCloseFn c9State 0 c9Session.remoteAddr).2
    ∧ ∀ sess ∈ (hget (sessionCloseFn c9State 0 c9Session.remoteAddr).1.heap 0).sessions,
        sess.remoteAddr ≠ c9Session.remoteAddr :=
  c9_quit_continues_packet_loop c9State c9Session 0 [["PING", "tok"]]
    (by decide) (by decide) (by decide)

/-- C10: a session that has joined as the already-registered username
"alice" without ever authenticating can issue NAME alice→carol and
thereby rename the registered user's stored username to "carol" — no
password is ever verified (the session stays unauthenticated and the
stored digest is untouched). -/
theorem c10_unauthenticated_rename_of_registered_user :
    (runState (processPackets c10State (freshSession "a1")
        [["JOIN", "alice"], ["NAME", "alice", "carol"]])).map
        (fun st => ((hget st.heap 0).username, (hget st.heap 0).passwordHash, st.users))
      = some ("carol", bcryptHash "pw", [0])
    ∧ (runSession (processPackets c10State (freshSession "a1")
        [["JOIN", "alice"], ["NAME", "alice", "carol"]])).map (fun cs => cs.authenticated)
      = some false := by
  decide

end GoSCP
